import Mathlib

set_option maxRecDepth 100000

/-!
Verification of the Learnerator RAG core against its specification.

The development shallowly embeds the chunking, ingestion, retrieval and
answer-composition code of `Sunny/rag_module/vector_database.py` and
`Sunny/rag_module/rag_chatbot.py`. Text is modelled as `List Char`;
Python string slicing, `str.rfind` and `str.strip` are given faithful
models including the Python treatment of negative indices. Python floats
are modelled as rationals. External collaborators (the Milvus index, the
sentence-transformer embedder, the LLM) are injected as function
parameters, mirroring the capability contracts of the specification.
-/

/-- Characters removed by Python `str.strip()` with no argument. -/
def pyIsSpace (c : Char) : Bool :=
  c = ' ' || c = '\t' || c = '\n' || c = '\r' || c = Char.ofNat 11 || c = Char.ofNat 12

/-- Model of Python `str.strip()`: drop leading and trailing whitespace. -/
def pyStrip (s : List Char) : List Char :=
  ((s.dropWhile pyIsSpace).reverse.dropWhile pyIsSpace).reverse

/-- Normalisation of a Python slice index against a string of length `n`:
negative indices count from the end, and the result is clamped to `[0, n]`. -/
def pyClamp (n : Nat) (i : Int) : Nat :=
  min (if i < 0 then (n : Int) + i else i).toNat n

/-- Model of the Python slice `s[i:j]` with full negative-index semantics. -/
def pySlice (s : List Char) (i j : Int) : List Char :=
  (s.take (pyClamp s.length j)).drop (pyClamp s.length i)

/-- The candidate occurrence positions of `sub` inside the normalised range
`[a, b)`: indices at which `sub` occurs entirely within the range. -/
def rfindCands (s sub : List Char) (a b : Nat) : List Nat :=
  (List.range (s.length + 1)).filter
    (fun k => decide (a ≤ k) && decide (k + sub.length ≤ b)
      && ((s.drop k).take sub.length == sub))

/-- Model of Python `s.rfind(sub, i, j)`: the largest absolute index `k` such
that `sub` occurs at `k` entirely inside the normalised range, or `-1`. -/
def pyRfind (s sub : List Char) (i j : Int) : Int :=
  match (rfindCands s sub (pyClamp s.length i) (pyClamp s.length j)).getLast? with
  | some k => (k : Int)
  | none => -1

/-- The sentence terminators tried by `_chunk_text`, in source order. -/
def sentenceEnders : List (List Char) :=
  [['.', ' '], ['!', ' '], ['?', ' '], ['\n', '\n']]

/-- The `for punct in [...]` loop of `_chunk_text`: the first terminator kind
whose last occurrence in `[start, e)` starts strictly after `mid` wins and
the loop breaks; otherwise the raw end `e` is kept. -/
def snapLoop (text : List Char) (start e mid : Int) : List (List Char) → Int
  | [] => e
  | p :: ps =>
    if mid < pyRfind text p start e then pyRfind text p start e + p.length
    else snapLoop text start e mid ps

/-- The end of the window opened at `start` by `_chunk_text`: `start + cs`,
snapped backwards to a sentence boundary when the raw end falls strictly
inside the text. -/
def chunkEnd (text : List Char) (cs : Nat) (start : Int) : Int :=
  if start + (cs : Int) < (text.length : Int) then
    snapLoop text start (start + (cs : Int)) (start + ((cs / 2 : Nat) : Int)) sentenceEnders
  else start + (cs : Int)

/-- The `while start < len(text)` loop of `_chunk_text`, with explicit fuel.
Each pass slices the current window, strips it, keeps it when non-empty, and
advances `start` to `end - overlap`; `none` means the fuel ran out before the
loop exited. -/
def chunkLoop (text : List Char) (cs ov : Nat) : Nat → Int → Option (List (List Char))
  | 0, _ => none
  | fuel + 1, start =>
    if start < (text.length : Int) then
      let e := chunkEnd text cs start
      let chunk := pyStrip (pySlice text start e)
      let rest :=
        if (text.length : Int) ≤ e - (ov : Int) then some []
        else chunkLoop text cs ov fuel (e - (ov : Int))
      rest.map (fun r => if chunk.isEmpty then r else chunk :: r)
    else some []

/-- The same loop recording the raw window slices before `strip` and before
the non-empty filter; used to state what the trimming loses. -/
def windowLoop (text : List Char) (cs ov : Nat) : Nat → Int → Option (List (List Char))
  | 0, _ => none
  | fuel + 1, start =>
    if start < (text.length : Int) then
      let e := chunkEnd text cs start
      let rest :=
        if (text.length : Int) ≤ e - (ov : Int) then some []
        else windowLoop text cs ov fuel (e - (ov : Int))
      rest.map (fun r => pySlice text start e :: r)
    else some []

/-- `VectorDatabase._chunk_text` with explicit fuel for the while loop. -/
def chunkTextFuel (text : List Char) (cs ov fuel : Nat) : Option (List (List Char)) :=
  if text.length ≤ cs then some [text] else chunkLoop text cs ov fuel 0

/-- `VectorDatabase._chunk_text` run with fuel `length + 1`, which suffices
whenever the loop makes progress (proved below for the shipped parameters). -/
def chunkTextD (text : List Char) (cs ov : Nat) : List (List Char) :=
  (chunkTextFuel text cs ov (text.length + 1)).getD []

/-- The raw windows visited by `_chunk_text`, with the same control flow. -/
def chunkWindows (text : List Char) (cs ov : Nat) : Option (List (List Char)) :=
  if text.length ≤ cs then some [text] else windowLoop text cs ov (text.length + 1) 0

/-- Termination of the chunking loop on a given input. -/
def ChunkerTerminates (text : List Char) (cs ov : Nat) : Prop :=
  ∃ fuel, (chunkTextFuel text cs ov fuel).isSome

/-- Concatenation of the tail chunks with the first `ov` characters removed
from each, the overlap de-duplication of the specification. -/
def glueTail (ov : Nat) : List (List Char) → List Char
  | [] => []
  | w :: ws => w.drop ov ++ glueTail ov ws

/-- Concatenation of chunks de-duplicating the `ov`-character overlap
regions: the first chunk whole, every later chunk without its first `ov`
characters. -/
def glueOv (ov : Nat) : List (List Char) → List Char
  | [] => []
  | w :: ws => w ++ glueTail ov ws

/-- Modelled from the words of the claim for comparison with `chunkEnd`: the
window end obtained by snapping to the terminator occurrence closest to the
right edge among all four kinds, provided it starts strictly past the
midpoint; the raw cut is kept only when no kind qualifies. -/
def nearestSnapEnd (text : List Char) (cs : Nat) (start : Int) : Int :=
  if start + (cs : Int) < (text.length : Int) then
    let mid := start + ((cs / 2 : Nat) : Int)
    match (sentenceEnders.filterMap (fun p =>
        let k := pyRfind text p start (start + (cs : Int))
        if mid < k then some (k + p.length) else none)).max? with
    | some m => m
    | none => start + (cs : Int)
  else start + (cs : Int)

/-- Decimal rendering of a natural number, as Python str() inside f-strings. -/
def natRepr (n : Nat) : List Char := (Nat.repr n).toList

/-- The content payload handed to `VectorDatabase.add_content`: the dict built
by the content extractor, as an explicit record. The `metadata` field keeps
the already-serialised JSON string, which `add_content` only copies. -/
structure ContentData where
  content : List Char
  url : List Char
  content_type : List Char
  title : List Char
  metadata : List Char
deriving DecidableEq

/-- A row inserted into the Milvus collection by `add_content`, parametrised
by the embedding-vector type `V` supplied by the embedder collaborator. -/
structure ChunkRecord (V : Type) where
  id : List Char
  content : List Char
  source_url : List Char
  content_type : List Char
  title : List Char
  chunk_index : Nat
  total_chunks : Nat
  timestamp : ℚ
  metadata : List Char
  embedding : V
deriving DecidableEq

/-- `VectorDatabase._generate_id`: the md5 hex digest of
`f"{source_url}:{chunk_index}:{content[:100]}"` followed by
`_{chunk_index}`. The md5 hex function itself is injected as the
deterministic collaborator `md5hex`. -/
def generate_id (md5hex : List Char → List Char) (content source_url : List Char)
    (chunk_index : Nat) : List Char :=
  md5hex (source_url ++ ':' :: natRepr chunk_index ++ ':' :: content.take 100)
    ++ '_' :: natRepr chunk_index

/-- The embedding loop of `add_content`: `self.model.encode(chunk)` for each
chunk in order. The first raised error aborts the whole loop, exactly as an
exception would escape the `for` loop into the surrounding `try`. -/
def embedEach {E V : Type} (embed : List Char → Except E V) :
    List (List Char) → Except E (List V)
  | [] => .ok []
  | c :: cs =>
    match embed c with
    | .error e => .error e
    | .ok v =>
      match embedEach embed cs with
      | .error e => .error e
      | .ok vs => .ok (v :: vs)

/-- The per-chunk record construction of `add_content`, enumerating chunks
from index `i` with their computed embeddings. -/
def buildRecords {V : Type} (md5hex : List Char → List Char) (d : ContentData)
    (total : Nat) (now : ℚ) : Nat → List (List Char × V) → List (ChunkRecord V)
  | _, [] => []
  | i, (c, v) :: rest =>
    { id := generate_id md5hex c d.url i
      content := c
      source_url := d.url
      content_type := d.content_type
      title := d.title
      chunk_index := i
      total_chunks := total
      timestamp := now
      metadata := d.metadata
      embedding := v } :: buildRecords md5hex d total now (i + 1) rest

/-- `VectorDatabase.add_content`. Returns the success flag together with the
rows handed to `collection.insert`; `(false, [])` models the `except` path
(or the empty-chunks early return), in which nothing is inserted because the
insert only happens after the whole embedding loop finishes. `now` is the
`time.time()` value observed at the start of the call. -/
def add_content {E V : Type} (md5hex : List Char → List Char)
    (embed : List Char → Except E V) (now : ℚ) (d : ContentData) :
    Bool × List (ChunkRecord V) :=
  let chunks := chunkTextD d.content 500 50
  if chunks.isEmpty then (false, [])
  else
    match embedEach embed chunks with
    | .error _ => (false, [])
    | .ok vecs => (true, buildRecords md5hex d chunks.length now 0 (chunks.zip vecs))

/-- The final length gate of `ContentExtractor.extract_web_content`: after
the HTTP fetch, boilerplate removal and whitespace normalisation (outside
this embedding), a normalised text shorter than 100 characters yields `None`
instead of a content payload. -/
def extractWebGate (title text url : List Char) : Option ContentData :=
  if text.length < 100 then none
  else some { content := text, url := url, content_type := ("web").toList,
              title := title, metadata := [] }

/-- The final length gate of `ContentExtractor.extract_youtube_transcript`:
a joined, normalised transcript shorter than 50 characters yields `None`. -/
def extractTranscriptGate (title text url : List Char) : Option ContentData :=
  if text.length < 50 then none
  else some { content := text, url := url, content_type := ("youtube").toList,
              title := title, metadata := [] }

/-- The web branch of `LearningResourceVectorDB.add_resource` from the point
where the extractor has produced its normalised text: a `None` extraction is
reported as failure with nothing stored, otherwise the payload goes to
`add_content`. -/
def addResourceWeb {E V : Type} (md5hex : List Char → List Char)
    (embed : List Char → Except E V) (now : ℚ) (url title text : List Char) :
    Bool × List (ChunkRecord V) :=
  match extractWebGate title text url with
  | none => (false, [])
  | some d => add_content md5hex embed now d

/-- The YouTube branch of `LearningResourceVectorDB.add_resource` from the
point where the transcript has been joined and normalised. -/
def addResourceTranscript {E V : Type} (md5hex : List Char → List Char)
    (embed : List Char → Except E V) (now : ℚ) (url title text : List Char) :
    Bool × List (ChunkRecord V) :=
  match extractTranscriptGate title text url with
  | none => (false, [])
  | some d => add_content md5hex embed now d

/-- A chunk as reconstructed from a Milvus hit by `VectorDatabase.search`. -/
structure ContentChunk where
  id : List Char
  content : List Char
  source_url : List Char
  content_type : List Char
  title : List Char
  chunk_index : Nat
  total_chunks : Nat
  timestamp : ℚ
  metadata : List Char
deriving DecidableEq

/-- A search result: a chunk paired with its cosine-similarity score. -/
structure SearchResult where
  chunk : ContentChunk
  similarity : ℚ
deriving DecidableEq

/-- A raw hit returned by `collection.search`: entity fields plus score. -/
structure SearchHit where
  id : List Char
  content : List Char
  source_url : List Char
  content_type : List Char
  title : List Char
  chunk_index : Nat
  total_chunks : Nat
  timestamp : ℚ
  metadata : List Char
  score : ℚ
deriving DecidableEq

/-- The hit-to-result conversion in the result loop of
`VectorDatabase.search`: a pure repackaging of every entity field. -/
def toSearchResult (h : SearchHit) : SearchResult :=
  { chunk :=
    { id := h.id
      content := h.content
      source_url := h.source_url
      content_type := h.content_type
      title := h.title
      chunk_index := h.chunk_index
      total_chunks := h.total_chunks
      timestamp := h.timestamp
      metadata := h.metadata }
    similarity := h.score }

/-- The filter expression built by `VectorDatabase.search` when a content
type is given: `content_type == "<t>"`. -/
def filtExpr (contentType : Option (List Char)) : Option (List Char) :=
  contentType.map (fun t => ("content_type == ").toList ++ '"' :: (t ++ ['"']))

/-- `VectorDatabase.search`. The collaborator `indexSearch` is
`collection.search` with the embedded query vector folded in: it receives
the requested candidate count and the optional filter expression, and may
fail (embedding or index errors), which the surrounding `try` converts to an
empty result list. All returned hits are repackaged in index order; nothing
is filtered or re-sorted. -/
def search {E : Type} (indexSearch : Nat → Option (List Char) → Except E (List SearchHit))
    (limit : Nat) (contentType : Option (List Char)) : List SearchResult :=
  match indexSearch limit (filtExpr contentType) with
  | .error _ => []
  | .ok hits => hits.map toSearchResult

/-- `LearningResourceVectorDB.search_resources`: a direct delegation to
`VectorDatabase.search` with the same arguments. -/
def search_resources {E : Type}
    (indexSearch : Nat → Option (List Char) → Except E (List SearchHit))
    (limit : Nat) (contentType : Option (List Char)) : List SearchResult :=
  search indexSearch limit contentType

/-- The structured reply of `RAGChatbot.ask` (`rag_chatbot.ChatResponse`). -/
structure ChatResponse where
  answer : List Char
  sources : List SearchResult
  confidence : ℚ
  query : List Char
  error : Option (List Char)
deriving DecidableEq

/-- Fixed reply text for an empty or whitespace question. -/
def invalidQuestionAnswer : List Char := ("Please provide a valid question.").toList

/-- Fixed error field for an empty or whitespace question. -/
def emptyQuestionError : List Char := ("Empty question").toList

/-- Fixed reply text when retrieval finds no candidates at all. -/
def notFoundAnswer : List Char :=
  ("I couldn\x27t find any relevant information in the knowledge base to answer your question. Try asking about topics that are covered in the stored learning resources.").toList

/-- The hedging disclaimer used when no candidate beats the 0.5 threshold. -/
def hedgeAnswer : List Char :=
  ("I found some content that might be related to your question, but it doesn\x27t seem directly relevant. Here\x27s what I found:").toList

/-- The fixed apology answer of the exception handler in `ask`. -/
def apologyAnswer : List Char :=
  ("Sorry, I encountered an error while processing your question. Please try again.").toList

/-- The filter-and-rank loop of `ask`: append every result whose similarity
exceeds 0.5, and break as soon as the kept list reaches `maxSources`. -/
def relevantFilter (maxSources : Nat) :
    List SearchResult → List SearchResult → List SearchResult
  | acc, [] => acc
  | acc, r :: rs =>
    let acc2 := if (1 / 2 : ℚ) < r.similarity then acc ++ [r] else acc
    if maxSources ≤ acc2.length then acc2 else relevantFilter maxSources acc2 rs

/-- Truncation with ellipsis, as applied to long source contents. -/
def truncateTo (n : Nat) (s : List Char) : List Char :=
  if n < s.length then s.take n ++ ("...").toList else s

/-- Python `"\n".join`. -/
def joinNL : List (List Char) → List Char
  | [] => []
  | [s] => s
  | s :: rest => s ++ '\n' :: joinNL rest

/-- The per-source lines of `_generate_simple_answer`, numbering from 1. -/
def simpleAnswerParts : Nat → List SearchResult → List (List Char)
  | _, [] => []
  | i, s :: rest =>
    (("**").toList ++ natRepr i ++ (". From \x27").toList ++ s.chunk.title
        ++ ("\x27:**").toList)
      :: truncateTo 300 s.chunk.content
      :: [] :: simpleAnswerParts (i + 1) rest

/-- `RAGChatbot._generate_simple_answer`: the deterministic fallback answer
(the question argument is unused in the source as well). -/
def generate_simple_answer (sources : List SearchResult) : List Char :=
  joinNL ((("Based on the learning resources in my knowledge base:\n").toList)
    :: simpleAnswerParts 1 sources
    ++ [("For more detailed information, please refer to the original sources.").toList])

/-- The context block of `_generate_llm_answer`: each kept source truncated
to 1000 characters under a `Source N - title:` header. -/
def contextParts : Nat → List SearchResult → List (List Char)
  | _, [] => []
  | i, s :: rest =>
    (("Source ").toList ++ natRepr i ++ (" - ").toList ++ s.chunk.title
        ++ (":\n").toList ++ truncateTo 1000 s.chunk.content ++ ['\n'])
      :: contextParts (i + 1) rest

/-- The fixed head of the instructional prompt template. -/
def promptHead : List Char :=
  ("You are a helpful AI assistant that answers questions based on learning resources. Use the following context to answer the user\x27s question accurately and helpfully.\n\nContext from Learning Resources:\n").toList

/-- The fixed tail of the instructional prompt template. -/
def promptTail : List Char :=
  ("\n\nInstructions:\n- Provide a clear, concise answer based primarily on the given context\n- If referencing specific information, mention which source it comes from\n- If the context doesn\x27t fully answer the question, be honest about limitations\n- Keep the answer focused and practical\n- Use a helpful, educational tone\n- Format your response in a readable way with proper paragraphs\n\nAnswer:").toList

/-- The formatted prompt submitted to the LLM collaborator. -/
def buildPrompt (question context : List Char) : List Char :=
  promptHead ++ context ++ ("\n\nQuestion: ").toList ++ question ++ promptTail

/-- Boolean test that `p` is an initial segment of `s` (Python startswith). -/
def startsWithL (s p : List Char) : Bool := s.take p.length == p

/-- `RAGChatbot._generate_llm_answer`: submit the prompt; on any LLM failure
fall back to the deterministic simple answer; on success strip the response
and remove a leading `Answer:` echo. -/
def generate_llm_answer (llm : List Char → Except (List Char) (List Char))
    (question : List Char) (sources : List SearchResult) : List Char :=
  match llm (buildPrompt question (joinNL (contextParts 1 sources))) with
  | .error _ => generate_simple_answer sources
  | .ok resp =>
    let a := pyStrip resp
    if startsWithL a (("Answer:").toList) then pyStrip (a.drop 7) else a

/-- `RAGChatbot.ask`. `searchFn` is `self.vector_db.search` as seen from
`ask` (its call may raise, which the handler converts into the apology
response); `llm` is the optional generation collaborator. The function is
total: every input produces a structured `ChatResponse`. -/
def ask (searchFn : List Char → Nat → Except (List Char) (List SearchResult))
    (llm : Option (List Char → Except (List Char) (List Char)))
    (question : List Char) (maxSources : Nat) : ChatResponse :=
  if pyStrip question = [] then
    { answer := invalidQuestionAnswer, sources := [], confidence := 0,
      query := question, error := some emptyQuestionError }
  else
    let q := pyStrip question
    match searchFn q (maxSources * 2) with
    | .error e =>
      { answer := apologyAnswer, sources := [], confidence := 0,
        query := q, error := some e }
    | .ok results =>
      if results.isEmpty then
        { answer := notFoundAnswer, sources := [], confidence := 0,
          query := q, error := none }
      else
        let relevant := relevantFilter maxSources [] results
        if relevant.isEmpty then
          { answer := hedgeAnswer, sources := results.take maxSources,
            confidence := 3 / 10, query := q, error := none }
        else
          match llm with
          | some g =>
            { answer := generate_llm_answer g q relevant
              sources := relevant
              confidence := min (9 / 10 : ℚ) (max (6 / 10 : ℚ)
                (((relevant.map SearchResult.similarity).sum) / (relevant.length : ℚ)))
              query := q, error := none }
          | none =>
            { answer := generate_simple_answer relevant, sources := relevant,
              confidence := 1 / 2, query := q, error := none }

/-! Helper lemmas shared by several claims. -/

/-- A 600-character text whose leading space is trimmed away by the chunker. -/
def bigText : List Char := ' ' :: List.replicate 509 'a'

/-- A placeholder chunk used to build concrete search results. -/
def sampleChunk : ContentChunk :=
  { id := [], content := [], source_url := [], content_type := [], title := [],
    chunk_index := 0, total_chunks := 1, timestamp := 0, metadata := [] }

/-- A concrete search result with the given similarity. -/
def srOf (q : ℚ) : SearchResult := { chunk := sampleChunk, similarity := q }

/-- A hit that records the candidate count the index was asked for. -/
def probeHit (k : Nat) : SearchHit :=
  { id := [], content := [], source_url := [], content_type := [], title := [],
    chunk_index := k, total_chunks := 1, timestamp := 0, metadata := [], score := 0 }

/-- An embedder that fails exactly on 499-character chunks. -/
def c2embed : List Char → Except (List Char) Nat :=
  fun c => if c.length = 499 then .error (("embedding failed").toList) else .ok 0

/-- A content payload whose text chunks into one failing and one good chunk. -/
def c2data : ContentData :=
  { content := bigText, url := ("https://e").toList, content_type := ("web").toList,
    title := [], metadata := [] }

theorem relevantFilter_of_all_le (maxSources : Nat) (acc : List SearchResult)
    (rs : List SearchResult) (hlow : ∀ r ∈ rs, r.similarity ≤ 1 / 2) :
    relevantFilter maxSources acc rs = acc := by
  induction rs generalizing acc with
  | nil => rfl
  | cons r rs ih =>
    have hr : ¬ ((1 / 2 : ℚ) < r.similarity) :=
      not_lt.mpr (hlow r (List.mem_cons_self r rs))
    have hrest : ∀ x ∈ rs, x.similarity ≤ 1 / 2 :=
      fun x hx => hlow x (List.mem_cons_of_mem r hx)
    simp only [relevantFilter, if_neg hr]
    by_cases hb : maxSources ≤ acc.length
    · rw [if_pos hb]
    · rw [if_neg hb]
      exact ih acc hrest

theorem embedEach_error_of_mem {E V : Type} (embed : List Char → Except E V)
    (l : List (List Char)) (c : List Char) (e : E)
    (hc : c ∈ l) (he : embed c = .error e) :
    ∃ e2, embedEach embed l = .error e2 := by
  induction l with
  | nil => cases hc
  | cons a l ih =>
    cases ha : embed a with
    | error ea => exact ⟨ea, by simp [embedEach, ha]⟩
    | ok v =>
      rcases List.mem_cons.mp hc with h | h
      · subst h; rw [ha] at he; cases he
      · obtain ⟨e2, h2⟩ := ih h
        exact ⟨e2, by simp [embedEach, ha, h2]⟩

theorem buildRecords_map_id_time {V : Type} (md5hex : List Char → List Char)
    (d : ContentData) (total : Nat) (t1 t2 : ℚ) (i : Nat) (ps : List (List Char × V)) :
    (buildRecords md5hex d total t1 i ps).map ChunkRecord.id
      = (buildRecords md5hex d total t2 i ps).map ChunkRecord.id := by
  induction ps generalizing i with
  | nil => rfl
  | cons p ps ih =>
    cases p with
    | mk c v => simp only [buildRecords, List.map_cons, ih (i + 1)]

theorem buildRecords_id_shape {V : Type} (md5hex : List Char → List Char)
    (d : ContentData) (total : Nat) (now : ℚ) (i : Nat) (ps : List (List Char × V)) :
    ∀ r ∈ buildRecords md5hex d total now i ps,
      r.id = generate_id md5hex r.content d.url r.chunk_index := by
  induction ps generalizing i with
  | nil => intro r hr; cases hr
  | cons p ps ih =>
    cases p with
    | mk c v =>
      intro r hr
      rcases List.mem_cons.mp hr with h | h
      · subst h; rfl
      · exact ih (i + 1) r h

/-! C3: deterministic chunk ids across re-ingestion. -/

/-- C3: ingesting the identical `(url, text)` pair twice (the only thing that
differs between the two runs being the observed wall-clock time) produces the
same list of chunk ids, and every produced id is derived from
`(source_url, chunk_index, content prefix)` through the injected hash, i.e.
re-ingestion of identical input is idempotent at the chunk-id level. -/
theorem c3_idempotent_ids {E V : Type} (md5hex : List Char → List Char)
    (embed : List Char → Except E V) (d : ContentData) (t1 t2 : ℚ) :
    (add_content md5hex embed t1 d).2.map ChunkRecord.id
      = (add_content md5hex embed t2 d).2.map ChunkRecord.id
    ∧ ∀ r ∈ (add_content md5hex embed t1 d).2,
        r.id = generate_id md5hex r.content d.url r.chunk_index := by
  unfold add_content
  by_cases hch : (chunkTextD d.content 500 50).isEmpty
  · simp [hch]
  · cases hemb : embedEach embed (chunkTextD d.content 500 50) with
    | error e => simp [hch, hemb]
    | ok vecs =>
      refine ⟨?_, ?_⟩
      · simp only [hch, hemb, Bool.false_eq_true, if_neg]
        exact buildRecords_map_id_time md5hex d _ t1 t2 0 _
      · simp only [hch, hemb, Bool.false_eq_true, if_neg]
        exact buildRecords_id_shape md5hex d _ t1 0 _

/-! C7: the hedge path of ask. -/

/-- C7: when retrieval yields a non-empty candidate list in which no
similarity exceeds 0.5, `ask` returns the hedging disclaimer, the first
`maxSources` candidates as sources, and confidence exactly 0.3. -/
theorem c7_hedge_path (searchFn : List Char → Nat → Except (List Char) (List SearchResult))
    (llm : Option (List Char → Except (List Char) (List Char)))
    (question : List Char) (maxSources : Nat) (results : List SearchResult)
    (hq : pyStrip question ≠ [])
    (hs : searchFn (pyStrip question) (maxSources * 2) = .ok results)
    (hne : results ≠ [])
    (hlow : ∀ r ∈ results, r.similarity ≤ 1 / 2) :
    ask searchFn llm question maxSources =
      { answer := hedgeAnswer, sources := results.take maxSources,
        confidence := 3 / 10, query := pyStrip question, error := none } := by
  have hempty : results.isEmpty = false := by
    cases results with
    | nil => exact absurd rfl hne
    | cons a l => rfl
  have hrel : relevantFilter maxSources [] results = [] :=
    relevantFilter_of_all_le maxSources [] results hlow
  simp only [ask, if_neg hq, hs, hempty, hrel, Bool.false_eq_true, if_false,
    List.isEmpty_nil, if_true]

/-- Witness for C7: two candidates at similarities 0.3 and 0.2, mirroring
the example in the specification. -/
theorem c7_hedge_path_witness :
    ask (fun _ _ => .ok [srOf (3 / 10), srOf (2 / 10)]) none (("hi").toList) 2 =
      { answer := hedgeAnswer, sources := [srOf (3 / 10), srOf (2 / 10)],
        confidence := 3 / 10, query := ("hi").toList, error := none } :=
  c7_hedge_path _ none _ 2 [srOf (3 / 10), srOf (2 / 10)]
    (by decide) rfl (by decide) (by norm_num [List.forall_mem_cons, srOf])

/-! C8: ask converts exceptions into the apology response. -/

/-- C8: `ask` is a total function into `ChatResponse`, and when the
retrieval collaborator fails with message `e` the caller receives the fixed
apology answer with confidence 0, no sources, and `error` carrying `e`. -/
theorem c8_error_to_apology
    (searchFn : List Char → Nat → Except (List Char) (List SearchResult))
    (llm : Option (List Char → Except (List Char) (List Char)))
    (question : List Char) (maxSources : Nat) (e : List Char)
    (hq : pyStrip question ≠ [])
    (he : searchFn (pyStrip question) (maxSources * 2) = .error e) :
    ask searchFn llm question maxSources =
      { answer := apologyAnswer, sources := [], confidence := 0,
        query := pyStrip question, error := some e } := by
  simp only [ask, if_neg hq, he]

/-- Witness for C8: a retrieval collaborator that always raises. -/
theorem c8_error_to_apology_witness :
    ask (fun _ _ => .error (("index down").toList)) none (("why").toList) 3 =
      { answer := apologyAnswer, sources := [], confidence := 0,
        query := ("why").toList, error := some (("index down").toList) } :=
  c8_error_to_apology _ none _ 3 (("index down").toList) (by decide) rfl

/-! C5: what the retrieval facade asks of the index, and what it returns. -/

/-- C5 counterexample: an index probe that echoes the requested candidate
count into the returned hit shows that `search` with `limit = 5` requests 5
candidates, not `limit * 2 = 10`, from the underlying index. -/
theorem c5_counterexample :
    search (fun k _ => (.ok [probeHit k] : Except (List Char) (List SearchHit))) 5 none
        = [toSearchResult (probeHit 5)]
    ∧ toSearchResult (probeHit 5) ≠ toSearchResult (probeHit (2 * 5)) :=
  ⟨rfl, by decide⟩

/-- C5 amended: `search` forwards its `limit` argument unchanged to the
index, returns every fetched hit converted in index order without any
similarity filtering (so the index similarity ordering is preserved as
returned), and the `limit * 2` over-fetch lives one layer up: `ask` consults
its retrieval collaborator only at candidate count `maxSources * 2`. -/
theorem c5_amended :
    (∀ (E : Type) (idx : Nat → Option (List Char) → Except E (List SearchHit))
        (limit : Nat) (ct : Option (List Char)) (hits : List SearchHit),
        idx limit (filtExpr ct) = .ok hits →
          search idx limit ct = hits.map toSearchResult)
    ∧ (∀ hits : List SearchHit,
        (hits.map toSearchResult).map SearchResult.similarity = hits.map SearchHit.score)
    ∧ (∀ (f g : List Char → Nat → Except (List Char) (List SearchResult))
        (llm : Option (List Char → Except (List Char) (List Char)))
        (question : List Char) (maxSources : Nat),
        (∀ s, f s (maxSources * 2) = g s (maxSources * 2)) →
          ask f llm question maxSources = ask g llm question maxSources) := by
  refine ⟨?_, ?_, ?_⟩
  · intro E idx limit ct hits h
    simp [search, h]
  · intro hits
    induction hits with
    | nil => rfl
    | cons h t ih => simp [toSearchResult, ih]
  · intro f g llm question maxSources h
    by_cases hq : pyStrip question = []
    · simp [ask, hq]
    · simp only [ask, if_neg hq, h (pyStrip question)]

/-- Witness for C5 amended: a concrete index call through `search`. -/
theorem c5_amended_witness :
    search (fun _ _ => (.ok [probeHit 0] : Except (List Char) (List SearchHit))) 3 none
      = [probeHit 0].map toSearchResult :=
  c5_amended.1 (List Char) _ 3 none [probeHit 0] rfl

/-! C6: where the minimum-length rejection actually happens. -/

/-- C6 counterexample: `add_content` itself performs no minimum-length
check: a 5-character web payload is chunked, embedded and stored as one
chunk with a success result, not rejected. -/
theorem c6_counterexample :
    (("short").toList).length < 100
    ∧ (add_content (fun _ => ([] : List Char)) (fun _ => (.ok 0 : Except (List Char) Nat)) 0
        { content := ("short").toList, url := ("u").toList,
          content_type := ("web").toList, title := [], metadata := [] }).1 = true
    ∧ (add_content (fun _ => ([] : List Char)) (fun _ => (.ok 0 : Except (List Char) Nat)) 0
        { content := ("short").toList, url := ("u").toList,
          content_type := ("web").toList, title := [], metadata := [] }).2.length = 1 :=
  ⟨by decide, rfl, rfl⟩

/-- C6 amended: the length gate lives in the content extractor, not in the
ingestion operation: extraction yields no payload for web text under 100
characters or transcript text under 50, so resource ingestion through the
extractor stores zero chunks and reports failure for such input, while
`add_content` called directly never rejects short text. -/
theorem c6_amended :
    (∀ (E V : Type) (md5hex : List Char → List Char) (embed : List Char → Except E V)
        (now : ℚ) (url title text : List Char), text.length < 100 →
        addResourceWeb md5hex embed now url title text = (false, []))
    ∧ (∀ (E V : Type) (md5hex : List Char → List Char) (embed : List Char → Except E V)
        (now : ℚ) (url title text : List Char), text.length < 50 →
        addResourceTranscript md5hex embed now url title text = (false, [])) := by
  constructor
  · intro E V md5hex embed now url title text h
    simp [addResourceWeb, extractWebGate, h]
  · intro E V md5hex embed now url title text h
    simp [addResourceTranscript, extractTranscriptGate, h]

/-- Witness for C6 amended: the 10-character body of the specification
example stores nothing when ingested through the extractor path. -/
theorem c6_amended_witness :
    addResourceWeb (fun _ => ([] : List Char)) (fun _ => (.ok 0 : Except (List Char) Nat)) 0
      [] [] (("shortbody!").toList) = (false, []) :=
  c6_amended.1 (List Char) Nat _ _ 0 [] [] _ (by decide)

/-! C2: a per-chunk embedding failure aborts the whole ingestion. -/

/-- C2 counterexample: a 600-character text chunks into two pieces; the
embedder fails on the first chunk only, yet `add_content` returns failure
and stores nothing, instead of skipping the bad chunk and storing the good
one. -/
theorem c2_counterexample :
    chunkTextD c2data.content 500 50 = [List.replicate 499 'a', List.replicate 60 'a']
    ∧ c2embed (List.replicate 499 'a') = .error (("embedding failed").toList)
    ∧ c2embed (List.replicate 60 'a') = .ok 0
    ∧ add_content (fun _ => ([] : List Char)) c2embed 0 c2data = (false, []) :=
  ⟨by decide, rfl, rfl, rfl⟩

/-- C2 amended: an embedding failure on any chunk escapes the per-chunk loop
into the surrounding handler, so the entire `add_content` call fails and no
chunk of the document is stored; partial per-chunk success does not exist. -/
theorem c2_amended (E V : Type) (md5hex : List Char → List Char)
    (embed : List Char → Except E V) (now : ℚ) (d : ContentData)
    (h : ∃ c ∈ chunkTextD d.content 500 50, ∃ e, embed c = .error e) :
    add_content md5hex embed now d = (false, []) := by
  obtain ⟨c, hc, e, he⟩ := h
  unfold add_content
  by_cases hch : (chunkTextD d.content 500 50).isEmpty
  · simp [hch]
  · obtain ⟨e2, h2⟩ := embedEach_error_of_mem embed _ c e hc he
    simp [hch, h2]

/-- Witness for C2 amended: a failing embedder on a one-chunk text. -/
theorem c2_amended_witness :
    add_content (fun _ => ([] : List Char)) (fun _ => (.error [] : Except (List Char) Nat)) 0
      { content := ("tiny").toList, url := [], content_type := [], title := [],
        metadata := [] } = (false, []) :=
  c2_amended (List Char) Nat _ _ 0 _ ⟨("tiny").toList, by decide, [], rfl⟩

/-! C9: which terminator the boundary snap picks. -/

/-- The text of the C9 counterexample. -/
def snapText : List Char := ("abcdef. ! zzzzz").toList

/-- C9 counterexample: with a 10-character window over `snapText`, the
midpoint is 5; the terminator occurrence closest to the right edge is the
`! ` at index 8, but the chunker snaps to the `. ` at index 6 because `. `
is tried first, so the window ends at 8 where the nearest-terminator rule
of the claim would end it at 10. -/
theorem c9_counterexample :
    (0 : Int) + ((10 : Nat) : Int) < (snapText.length : Int)
    ∧ chunkEnd snapText 10 0 = 8
    ∧ nearestSnapEnd snapText 10 0 = 10 :=
  ⟨by decide, by decide, by decide⟩

theorem snapLoop_eq_find (text : List Char) (start e mid : Int) (ps : List (List Char)) :
    snapLoop text start e mid ps =
      match ps.find? (fun p => decide (mid < pyRfind text p start e)) with
      | some p => pyRfind text p start e + p.length
      | none => e := by
  induction ps with
  | nil => rfl
  | cons p ps ih =>
    simp only [snapLoop, List.find?_cons]
    by_cases h : mid < pyRfind text p start e
    · simp [h]
    · simp [h, ih]

/-- C9 amended: when the raw window end falls strictly inside the text, the
chunker snaps to just after the last occurrence of the first terminator
kind, in the fixed priority order `. `, `! `, `? `, blank line, whose last
occurrence in the window starts strictly after `start + chunk_size / 2`
(integer division); the raw cut is kept exactly when no kind qualifies. The
occurrence nearest the right edge across kinds plays no role. -/
theorem c9_amended (text : List Char) (cs : Nat) (start : Int)
    (h : start + (cs : Int) < (text.length : Int)) :
    chunkEnd text cs start =
      match sentenceEnders.find? (fun p =>
          decide (start + ((cs / 2 : Nat) : Int)
            < pyRfind text p start (start + (cs : Int)))) with
      | some p => pyRfind text p start (start + (cs : Int)) + p.length
      | none => start + (cs : Int) := by
  unfold chunkEnd
  rw [if_pos h]
  exact snapLoop_eq_find text start _ _ sentenceEnders

/-- Witness for C9 amended, at the counterexample window. -/
theorem c9_amended_witness :
    chunkEnd snapText 10 0 =
      match sentenceEnders.find? (fun p =>
          decide ((0 : Int) + (((10 : Nat) / 2 : Nat) : Int)
            < pyRfind snapText p 0 ((0 : Int) + ((10 : Nat) : Int)))) with
      | some p => pyRfind snapText p 0 ((0 : Int) + ((10 : Nat) : Int)) + p.length
      | none => (0 : Int) + ((10 : Nat) : Int) :=
  c9_amended snapText 10 0 (by decide)

/-! C4: termination of the chunking loop. -/

/-- The text on which the loop cycles for `chunk_size = 10, overlap = 9`. -/
def loopText : List Char := ("abcdef. xyzzzzz").toList

theorem c4_step_zero (f : Nat) :
    chunkLoop loopText 10 9 (f + 1) 0 =
      (chunkLoop loopText 10 9 f (-1)).map (fun r => (("abcdef.").toList) :: r) := rfl

theorem c4_step_neg (f : Nat) :
    chunkLoop loopText 10 9 (f + 1) (-1) =
      (chunkLoop loopText 10 9 f 0).map (fun r => r) := rfl

theorem c4_cycle (f : Nat) :
    chunkLoop loopText 10 9 f 0 = none ∧ chunkLoop loopText 10 9 f (-1) = none := by
  induction f with
  | zero => exact ⟨rfl, rfl⟩
  | succ f ih =>
    refine ⟨?_, ?_⟩
    · rw [c4_step_zero, ih.2]; rfl
    · rw [c4_step_neg, ih.1]; rfl

/-- C4 counterexample: on `loopText` with `chunk_size = 10` and
`overlap = 9` (which satisfy `overlap < chunk_size`), the advancing start
falls from 8 - 9 = -1 back to 0 and cycles forever: the first window snaps
to the `. ` boundary at 8, the next iteration slices the empty Python range
`[-1:9]`, finds nothing, and sets the start back to 9 - 9 = 0. No amount of
fuel makes the loop exit, refuting termination for all `overlap <
chunk_size`. -/
theorem c4_counterexample :
    loopText ≠ [] ∧ 9 < 10 ∧ ¬ ChunkerTerminates loopText 10 9 := by
  refine ⟨by decide, by decide, ?_⟩
  rintro ⟨fuel, hf⟩
  have h : chunkTextFuel loopText 10 9 fuel = chunkLoop loopText 10 9 fuel 0 := by
    unfold chunkTextFuel
    rw [if_neg (by decide)]
  rw [h, (c4_cycle fuel).1] at hf
  simp at hf

/-- Every sentence terminator is two characters long. -/
theorem sentenceEnders_length : ∀ p ∈ sentenceEnders, p.length = 2 := by decide

/-- Case analysis of the window end: either the raw cut is kept, or some
terminator kind qualified and the end is just after its last occurrence. -/
theorem chunkEnd_cases (text : List Char) (cs : Nat) (start : Int) :
    chunkEnd text cs start = start + (cs : Int)
    ∨ ∃ p ∈ sentenceEnders,
        start + ((cs / 2 : Nat) : Int) < pyRfind text p start (start + (cs : Int))
        ∧ chunkEnd text cs start = pyRfind text p start (start + (cs : Int)) + p.length := by
  by_cases h : start + (cs : Int) < (text.length : Int)
  · unfold chunkEnd
    rw [if_pos h, snapLoop_eq_find]
    cases hf : sentenceEnders.find? (fun p =>
        decide (start + ((cs / 2 : Nat) : Int)
          < pyRfind text p start (start + (cs : Int)))) with
    | none => left; rfl
    | some p =>
      right
      refine ⟨p, List.mem_of_find?_eq_some hf, ?_, rfl⟩
      have h2 := List.find?_some hf
      exact of_decide_eq_true h2
  · left
    unfold chunkEnd
    rw [if_neg h]

/-- Progress of the window end: from a non-negative start, the chosen end
lies strictly beyond `start + overlap` whenever `overlap < chunk_size` and
`overlap ≤ chunk_size / 2 + 2`. -/
theorem chunkEnd_lower (text : List Char) (cs ov : Nat) (hov : ov < cs)
    (hov2 : ov ≤ cs / 2 + 2) (s : Nat) :
    (s : Int) + (ov : Int) < chunkEnd text cs (s : Int) := by
  rcases chunkEnd_cases text cs (s : Int) with h | ⟨p, hp, hmid, h⟩
  · rw [h]; omega
  · have hl : p.length = 2 := sentenceEnders_length p hp
    rw [h, hl]
    have : (0 : Int) ≤ ((cs / 2 : Nat) : Int) := by positivity
    have hcs2 : ((cs / 2 : Nat) : Int) + 2 ≥ (ov : Int) := by exact_mod_cast hov2
    omega

/-- Relation between the two loop recordings: the chunks returned by the
source loop are exactly the raw windows, stripped, with empties dropped. -/
theorem chunkLoop_eq_windowLoop (text : List Char) (cs ov : Nat) :
    ∀ (fuel : Nat) (start : Int),
      chunkLoop text cs ov fuel start =
        (windowLoop text cs ov fuel start).map
          (fun ws => (ws.map pyStrip).filter (fun c => !c.isEmpty)) := by
  intro fuel
  induction fuel with
  | zero => intro start; rfl
  | succ fuel ih =>
    intro start
    simp only [chunkLoop, windowLoop]
    by_cases hs : start < (text.length : Int)
    · rw [if_pos hs, if_pos hs]
      by_cases hb : (text.length : Int) ≤ chunkEnd text cs start - (ov : Int)
      · rw [if_pos hb, if_pos hb]
        by_cases hc : (pyStrip (pySlice text start (chunkEnd text cs start))).isEmpty
          <;> simp [hc]
      · rw [if_neg hb, if_neg hb, ih]
        cases windowLoop text cs ov fuel (chunkEnd text cs start - (ov : Int)) with
        | none => rfl
        | some ws =>
          by_cases hc : (pyStrip (pySlice text start (chunkEnd text cs start))).isEmpty
            <;> simp [hc]
    · rw [if_neg hs, if_neg hs]; rfl

/-- Termination of the raw window loop, given progress conditions. -/
theorem windowLoop_terminates (text : List Char) (cs ov : Nat) (hov : ov < cs)
    (hov2 : ov ≤ cs / 2 + 2) :
    ∀ (fuel s : Nat), text.length - s < fuel →
      ∃ ws, windowLoop text cs ov fuel (s : Int) = some ws := by
  intro fuel
  induction fuel with
  | zero => intro s h; omega
  | succ fuel ih =>
    intro s h
    by_cases hs : (s : Int) < (text.length : Int)
    · have he := chunkEnd_lower text cs ov hov hov2 s
      simp only [windowLoop]
      rw [if_pos hs]
      by_cases hb : (text.length : Int) ≤ chunkEnd text cs (s : Int) - (ov : Int)
      · rw [if_pos hb]; exact ⟨_, rfl⟩
      · rw [if_neg hb]
        have hnn : 0 ≤ chunkEnd text cs (s : Int) - (ov : Int) := by omega
        have hcast : ((chunkEnd text cs (s : Int) - (ov : Int)).toNat : Int)
            = chunkEnd text cs (s : Int) - (ov : Int) := Int.toNat_of_nonneg hnn
        have hlt : text.length - (chunkEnd text cs (s : Int) - (ov : Int)).toNat < fuel := by
          have hsn : (s : Int) < ((chunkEnd text cs (s : Int) - (ov : Int)).toNat : Int) := by
            omega
          have hlen : s < text.length := by exact_mod_cast hs
          omega
        obtain ⟨ws, hws⟩ := ih ((chunkEnd text cs (s : Int) - (ov : Int)).toNat) hlt
        rw [hcast] at hws
        rw [hws]
        exact ⟨_, rfl⟩
    · simp only [windowLoop]
      rw [if_neg hs]
      exact ⟨[], rfl⟩

/-- C4 amended: the claim holds once the overlap is additionally bounded by
`chunk_size / 2 + 2` (integer division), which the shipped parameters
`chunk_size = 500, overlap = 50` satisfy: for every non-empty text the loop
terminates within `length + 1` iterations, because every window end exceeds
`start + overlap` so the advancing start strictly grows. Without that extra
bound, `overlap < chunk_size` alone admits the cycling counterexample. -/
theorem c4_amended (text : List Char) (cs ov : Nat) (hne : text ≠ [])
    (hov : ov < cs) (hov2 : ov ≤ cs / 2 + 2) :
    ChunkerTerminates text cs ov := by
  refine ⟨text.length + 1, ?_⟩
  unfold chunkTextFuel
  by_cases hlen : text.length ≤ cs
  · rw [if_pos hlen]; rfl
  · rw [if_neg hlen]
    rw [show (0 : Int) = ((0 : Nat) : Int) from rfl, chunkLoop_eq_windowLoop]
    obtain ⟨ws, hws⟩ :=
      windowLoop_terminates text cs ov hov hov2 (text.length + 1) 0 (by omega)
    rw [hws]
    rfl

/-- Witness for C4 amended: the shipped parameter shape on a small text. -/
theorem c4_amended_witness :
    ChunkerTerminates (("hello world this is a test").toList) 10 2 :=
  c4_amended (("hello world this is a test").toList) 10 2 (by decide)
    (by decide) (by decide)

/-! C1: what the chunker reconstructs and what the trimming loses. -/

theorem pySlice_natCast (l : List Char) (s e : Nat) :
    pySlice l (s : Int) (e : Int) = (l.take e).drop s := by
  unfold pySlice pyClamp
  rw [if_neg (by omega : ¬ ((e : Int) < 0)), if_neg (by omega : ¬ ((s : Int) < 0))]
  rw [Int.toNat_natCast, Int.toNat_natCast]
  have h1 : l.take (min e l.length) = l.take e := by
    rcases le_total e l.length with h | h
    · have hm : min e l.length = e := by omega
      rw [hm]
    · have hm : min e l.length = l.length := by omega
      rw [hm, List.take_length, List.take_of_length_le h]
  rw [h1]
  rcases le_total s l.length with h | h
  · have hm : min s l.length = s := by omega
    rw [hm]
  · have hlt : (l.take e).length ≤ l.length := by
      rw [List.length_take]
      omega
    have hm : min s l.length = l.length := by omega
    rw [hm, List.drop_eq_nil_of_le hlt, List.drop_eq_nil_of_le (le_trans hlt h)]

theorem pySlice_natCast_left (l : List Char) (s : Nat) (e : Int) (hE0 : 0 ≤ e) :
    pySlice l (s : Int) e = (l.take e.toNat).drop s := by
  have h2 := pySlice_natCast l s e.toNat
  rw [Int.toNat_of_nonneg hE0] at h2
  exact h2

theorem drop_take_append (l : List Char) (a e : Nat) (h : a ≤ e) :
    (l.take e).drop a ++ l.drop e = l.drop a := by
  conv_rhs => rw [← List.take_append_drop e l]
  rw [List.drop_append_eq_append_drop]
  by_cases h1 : a ≤ (l.take e).length
  · have h0 : a - (l.take e).length = 0 := by omega
    rw [h0, List.drop_zero]
  · have h2 : l.length ≤ e := by
      rw [List.length_take] at h1
      omega
    have h3 : l.drop e = [] := List.drop_eq_nil_of_le h2
    rw [h3]
    simp

theorem windowLoop_glue (text : List Char) (cs ov : Nat) (hov : ov < cs)
    (hov2 : ov ≤ cs / 2 + 2) :
    ∀ (fuel s : Nat) (ws : List (List Char)), s < text.length →
      windowLoop text cs ov fuel (s : Int) = some ws →
      glueOv ov ws = text.drop s ∧ glueTail ov ws = text.drop (s + ov) := by
  intro fuel
  induction fuel with
  | zero => intro s ws hs h; simp [windowLoop] at h
  | succ fuel ih =>
    intro s ws hs hw
    have hsI : (s : Int) < (text.length : Int) := by exact_mod_cast hs
    have he := chunkEnd_lower text cs ov hov hov2 s
    set e := chunkEnd text cs (s : Int) with hE
    have hE0 : 0 ≤ e := by omega
    have hslice : pySlice text (s : Int) e = (text.take e.toNat).drop s :=
      pySlice_natCast_left text s e hE0
    have hsltE : s + ov < e.toNat := by omega
    simp only [windowLoop] at hw
    rw [if_pos hsI] at hw
    by_cases hb : (text.length : Int) ≤ e - (ov : Int)
    · rw [if_pos hb] at hw
      have hws : ws = [pySlice text (s : Int) e] := by
        simpa using hw.symm
      subst hws
      have hlenE : text.length ≤ e.toNat := by omega
      have htake : text.take e.toNat = text := List.take_of_length_le hlenE
      constructor
      · simp [glueOv, glueTail, hslice, htake]
      · simp only [glueTail, hslice, htake, List.drop_drop, List.append_nil]
        try rw [Nat.add_comm ov s]
    · rw [if_neg hb] at hw
      cases hrec : windowLoop text cs ov fuel (e - (ov : Int)) with
      | none => rw [hrec] at hw; simp at hw
      | some ws2 =>
        rw [hrec] at hw
        have hws : ws = pySlice text (s : Int) e :: ws2 := by simpa using hw.symm
        subst hws
        have hs2lt : e.toNat - ov < text.length := by omega
        have hcast2 : (((e.toNat - ov : Nat)) : Int) = e - (ov : Int) := by omega
        rw [← hcast2] at hrec
        obtain ⟨ih1, ih2⟩ := ih (e.toNat - ov) ws2 hs2lt hrec
        have hstep : (e.toNat - ov) + ov = e.toNat := by omega
        rw [hstep] at ih2
        constructor
        · show pySlice text (s : Int) e ++ glueTail ov ws2 = text.drop s
          rw [hslice, ih2]
          exact drop_take_append text s e.toNat (by omega)
        · show (pySlice text (s : Int) e).drop ov ++ glueTail ov ws2 = text.drop (s + ov)
          rw [hslice, List.drop_drop, ih2]
          try rw [Nat.add_comm ov s]
          exact drop_take_append text (s + ov) e.toNat (by omega)

/-- C1 counterexample: on a 600-character text whose first character is a
space, the chunker trims that space from the first chunk, so concatenating
the returned chunks with the 50-character overlap de-duplicated yields a
509-character string instead of the original 510-character text; the space
is covered by no other chunk, so no de-duplication rule can recover it. -/
theorem c1_counterexample :
    chunkTextD bigText 500 50 = [List.replicate 499 'a', List.replicate 60 'a']
    ∧ glueOv 50 [List.replicate 499 'a', List.replicate 60 'a'] ≠ bigText :=
  ⟨by decide, by decide⟩

/-- C1 amended: the raw window slices visited by the chunker, concatenated
in order with the 50-character overlap regions de-duplicated, reconstruct
the original text exactly; the chunks actually returned are those windows
after per-chunk whitespace trimming with all-whitespace windows dropped (no
trimming happens in the single-chunk case), so reconstruction from the
returned chunks can lose exactly the trimmed edge whitespace. -/
theorem c1_amended (text : List Char) :
    ∃ ws, chunkWindows text 500 50 = some ws
      ∧ glueOv 50 ws = text
      ∧ chunkTextD text 500 50 =
          if text.length ≤ 500 then [text]
          else (ws.map pyStrip).filter (fun c => !c.isEmpty) := by
  by_cases hlen : text.length ≤ 500
  · refine ⟨[text], ?_, ?_, ?_⟩
    · unfold chunkWindows
      rw [if_pos hlen]
    · simp [glueOv, glueTail]
    · unfold chunkTextD chunkTextFuel
      rw [if_pos hlen, if_pos hlen]
      rfl
  · have h0 : 0 < text.length := by omega
    obtain ⟨ws, hws⟩ := windowLoop_terminates text 500 50 (by norm_num) (by norm_num)
      (text.length + 1) 0 (by omega)
    refine ⟨ws, ?_, ?_, ?_⟩
    · unfold chunkWindows
      rw [if_neg hlen]
      exact_mod_cast hws
    · have hg := (windowLoop_glue text 500 50 (by norm_num) (by norm_num)
        (text.length + 1) 0 ws h0 hws).1
      simpa using hg
    · rw [if_neg hlen]
      unfold chunkTextD chunkTextFuel
      rw [if_neg hlen]
      rw [show (0 : Int) = ((0 : Nat) : Int) from rfl, chunkLoop_eq_windowLoop]
      rw [hws]
      rfl

/-! C10: every returned chunk is at most `chunk_size` characters long. -/

theorem mem_of_getLast?_eq {α : Type} : ∀ {l : List α} {a : α}, l.getLast? = some a → a ∈ l
  | [], a, h => by simp at h
  | [b], a, h => by
    have hb : b = a := by simpa using h
    subst hb
    exact List.mem_cons_self b []
  | b :: c :: l, a, h => by
    rw [List.getLast?_cons_cons] at h
    exact List.mem_cons_of_mem b (mem_of_getLast?_eq h)

theorem length_dropWhile_le (p : Char → Bool) (l : List Char) :
    (l.dropWhile p).length ≤ l.length := by
  induction l with
  | nil => simp
  | cons a l ih =>
    rw [List.dropWhile_cons]
    by_cases h : p a
    · rw [if_pos h]
      exact le_trans ih (Nat.le_succ _)
    · rw [if_neg h]

theorem pyStrip_length_le (s : List Char) : (pyStrip s).length ≤ s.length := by
  unfold pyStrip
  rw [List.length_reverse]
  calc ((s.dropWhile pyIsSpace).reverse.dropWhile pyIsSpace).length
      ≤ (s.dropWhile pyIsSpace).reverse.length := length_dropWhile_le _ _
    _ = (s.dropWhile pyIsSpace).length := List.length_reverse _
    _ ≤ s.length := length_dropWhile_le _ _

theorem pyClamp_le (n : Nat) (i : Int) : pyClamp n i ≤ n := by
  unfold pyClamp
  exact min_le_right _ _

theorem pySlice_length (s : List Char) (i j : Int) :
    (pySlice s i j).length = pyClamp s.length j - pyClamp s.length i := by
  unfold pySlice
  rw [List.length_drop, List.length_take]
  have h1 := pyClamp_le s.length j
  have h : min (pyClamp s.length j) s.length = pyClamp s.length j := by omega
  rw [h]

theorem pyClamp_add_le (n : Nat) (i : Int) (c : Nat) :
    pyClamp n (i + (c : Int)) ≤ pyClamp n i + c := by
  unfold pyClamp
  split_ifs <;> omega

theorem rfindCands_bound (s sub : List Char) (a b k : Nat)
    (hk : k ∈ rfindCands s sub a b) : a ≤ k ∧ k + sub.length ≤ b := by
  unfold rfindCands at hk
  rw [List.mem_filter] at hk
  have h2 := hk.2
  simp only [Bool.and_eq_true, decide_eq_true_eq] at h2
  exact ⟨h2.1.1, h2.1.2⟩

theorem pyRfind_cases (s sub : List Char) (i j : Int) :
    pyRfind s sub i j = -1
    ∨ (0 ≤ pyRfind s sub i j
       ∧ (pyRfind s sub i j).toNat
           ∈ rfindCands s sub (pyClamp s.length i) (pyClamp s.length j)) := by
  cases hl : (rfindCands s sub (pyClamp s.length i) (pyClamp s.length j)).getLast? with
  | none => left; simp only [pyRfind, hl]
  | some k =>
    right
    constructor
    · simp only [pyRfind, hl]
      exact Int.natCast_nonneg k
    · simp only [pyRfind, hl, Int.toNat_natCast]
      exact mem_of_getLast?_eq hl

/-- The window cut by `_chunk_text` never exceeds `chunk_size` characters:
the snap can only keep the raw cut, move the end earlier, or (through the
Python `rfind` returning `-1` being treated as a position, reachable only
from negative starts) set it to index 1; in all cases the slice is at most
`chunk_size` long. -/
theorem slice_chunkEnd_length_le (text : List Char) (cs : Nat) (hcs : 0 < cs)
    (start : Int) :
    (pySlice text start (chunkEnd text cs start)).length ≤ cs := by
  rw [pySlice_length]
  rcases chunkEnd_cases text cs start with h | ⟨p, hp, hmid, h⟩
  · rw [h]
    have h4 := pyClamp_add_le text.length start cs
    omega
  · have hl : p.length = 2 := sentenceEnders_length p hp
    rw [h, hl]
    rcases pyRfind_cases text p start (start + (cs : Int)) with hr | ⟨hr0, hrmem⟩
    · rw [hr]
      have h1 : pyClamp text.length (-1 + ((2 : Nat) : Int)) ≤ 1 := by
        unfold pyClamp
        split_ifs <;> omega
      omega
    · obtain ⟨ha, hb⟩ := rfindCands_bound text p _ _ _ hrmem
      rw [hl] at hb
      have h3 : pyClamp text.length (pyRfind text p start (start + (cs : Int)) + ((2 : Nat) : Int))
          ≤ (pyRfind text p start (start + (cs : Int))).toNat + 2 := by
        unfold pyClamp
        split_ifs <;> omega
      have h4 := pyClamp_add_le text.length start cs
      have h5 := pyClamp_le text.length (start + (cs : Int))
      omega

theorem chunkLoop_bound (text : List Char) (cs ov : Nat) (hcs : 0 < cs) :
    ∀ (fuel : Nat) (start : Int) (res : List (List Char)),
      chunkLoop text cs ov fuel start = some res → ∀ c ∈ res, c.length ≤ cs := by
  intro fuel
  induction fuel with
  | zero => intro start res h; simp [chunkLoop] at h
  | succ fuel ih =>
    intro start res h
    simp only [chunkLoop] at h
    by_cases hs : start < (text.length : Int)
    · rw [if_pos hs] at h
      have hchunk : (pyStrip (pySlice text start (chunkEnd text cs start))).length ≤ cs :=
        le_trans (pyStrip_length_le _) (slice_chunkEnd_length_le text cs hcs start)
      by_cases hb : (text.length : Int) ≤ chunkEnd text cs start - (ov : Int)
      · rw [if_pos hb] at h
        simp only [Option.map_some', Option.some.injEq] at h
        subst h
        intro c hc
        by_cases hce : (pyStrip (pySlice text start (chunkEnd text cs start))).isEmpty
        · rw [if_pos hce] at hc
          cases hc
        · rw [if_neg hce] at hc
          rcases List.mem_cons.mp hc with h1 | h1
          · subst h1
            exact hchunk
          · cases h1
      · rw [if_neg hb] at h
        cases hrec : chunkLoop text cs ov fuel (chunkEnd text cs start - (ov : Int)) with
        | none => rw [hrec] at h; simp at h
        | some res2 =>
          rw [hrec] at h
          simp only [Option.map_some', Option.some.injEq] at h
          subst h
          intro c hc
          by_cases hce : (pyStrip (pySlice text start (chunkEnd text cs start))).isEmpty
          · rw [if_pos hce] at hc
            exact ih _ res2 hrec c hc
          · rw [if_neg hce] at hc
            rcases List.mem_cons.mp hc with h1 | h1
            · subst h1
              exact hchunk
            · exact ih _ res2 hrec c h1
    · rw [if_neg hs] at h
      simp only [Option.some.injEq] at h
      subst h
      intro c hc
      cases hc

/-- C10: for every input text and parameters with `overlap < chunk_size`,
whenever the chunking loop terminates, every chunk in its output is at most
`chunk_size` characters long: snapping only moves a window end earlier (or,
in the degenerate negative-start case, to index 1), and trimming only
shrinks chunks, so the bound is tighter than the specification's
`chunk_size` plus snap-window allowance. -/
theorem c10_chunk_length_bound (text : List Char) (cs ov fuel : Nat)
    (res : List (List Char)) (hov : ov < cs)
    (hres : chunkTextFuel text cs ov fuel = some res) :
    ∀ c ∈ res, c.length ≤ cs := by
  unfold chunkTextFuel at hres
  by_cases hlen : text.length ≤ cs
  · rw [if_pos hlen] at hres
    simp only [Option.some.injEq] at hres
    subst hres
    intro c hc
    rw [List.mem_singleton] at hc
    subst hc
    exact hlen
  · rw [if_neg hlen] at hres
    exact chunkLoop_bound text cs ov (by omega) fuel 0 res hres

/-- Witness for C10: a concrete run with `chunk_size = 10, overlap = 2`,
instantiated at the first produced chunk. -/
theorem c10_chunk_length_bound_witness :
    (("hello worl").toList).length ≤ 10 :=
  c10_chunk_length_bound (("hello world. this is fine").toList) 10 2 100
    [("hello worl").toList, ("rld. this").toList, ("s is fine").toList, ("e").toList]
    (by decide) (by decide) (("hello worl").toList) (by decide)
